import Mathlib

/-!
Shallow embedding of the AnaCore scripts `bin/addPanelRG.py` and
`bin/Acinome/variantsToFreq.py`, together with proofs about the
read-to-region matching logic, the panel loading / grouping logic, the
strand validator, the allele-frequency extraction and the coverage
storage.

Python integers are modelled as `Int` (resp. `Nat` where the source
only produces non-negative values), Python lists as `List`, Python
dicts (which preserve insertion order) as association lists, and
raising an exception as returning `Except.error`.
-/

namespace AnaCore

open List

/-- Area dictionary of `addPanelRG.py`:
`{"region":"chr1", "start":501, "end":608, "strand":"+", "id":"gene_98"}`.
`start` and `end` are 1-based inclusive bounds after loading. -/
structure Area where
  region : String
  start : Int
  «end» : Int
  id : String
  strand : String
deriving DecidableEq, Repr

/-- Fields of a `pysam.AlignedSegment` used by `addPanelRG.py`:
`reference_start` is 0-based, `reference_end` is 1-based inclusive. -/
structure AlignedSegment where
  reference_start : Int
  reference_end : Int
  is_reverse : Bool
  is_read1 : Bool
deriving DecidableEq, Repr

/-- Loop body of the `read.is_reverse` branch of `getSourceRegion`
(`addPanelRG.py` lines 88-94), with the `break` statements rendered as
returns of the recursion. -/
def revRegionScan (ref_end : Int) (anchor_offset : Int) : List Area → Option Area
  | [] => none
  | curr_region :: rest =>
    if ref_end < curr_region.start then
      none
    else if ref_end ≤ curr_region.«end» then
      if ref_end ≥ curr_region.«end» - anchor_offset then
        some curr_region
      else
        revRegionScan ref_end anchor_offset rest
    else
      revRegionScan ref_end anchor_offset rest

/-- Loop body of the forward branch of `getSourceRegion`
(`addPanelRG.py` lines 96-102), with the `break` statements rendered as
returns of the recursion. -/
def fwdRegionScan (ref_start : Int) (anchor_offset : Int) : List Area → Option Area
  | [] => none
  | curr_region :: rest =>
    if ref_start < curr_region.start then
      none
    else if ref_start ≥ curr_region.start then
      if ref_start ≤ curr_region.start + anchor_offset then
        some curr_region
      else
        fwdRegionScan ref_start anchor_offset rest
    else
      fwdRegionScan ref_start anchor_offset rest

/-- Translation of `getSourceRegion(read, regions, anchor_offset=0)`
(`addPanelRG.py` lines 76-103). -/
def getSourceRegion (read : AlignedSegment) (regions : List Area)
    (anchor_offset : Int := 0) : Option Area :=
  let ref_start := read.reference_start + 1
  let ref_end := read.reference_end
  if read.is_reverse then
    revRegionScan ref_end anchor_offset regions
  else
    fwdRegionScan ref_start anchor_offset regions

/-- Model of Python's `line.split(sep)` for a one-character separator,
by structural recursion over the character list (`acc` is the current
chunk, reversed). -/
def splitCharAux (sep : Char) : List Char → List Char → List String
  | [], acc => [String.mk acc.reverse]
  | c :: cs, acc =>
    if c = sep then
      String.mk acc.reverse :: splitCharAux sep cs []
    else
      splitCharAux sep cs (c :: acc)

/-- Model of Python's `line.split("\t")`. -/
def splitTab (s : String) : List String :=
  splitCharAux '\t' s.data []

/-- Model of Python's `str.strip()`: remove leading and trailing
whitespace. -/
def stripStr (s : String) : String :=
  String.mk (((s.data.dropWhile Char.isWhitespace).reverse.dropWhile Char.isWhitespace).reverse)

/-- Model of Python's `line.startswith(p)`. -/
def strStartsWith (s p : String) : Bool :=
  p.data.isPrefixOf s.data

/-- Digit-string accumulator for `strToInt?`. -/
def digitsToNatAux : List Char → Nat → Option Nat
  | [], acc => some acc
  | c :: cs, acc =>
    if c.isDigit then
      digitsToNatAux cs (acc * 10 + (c.toNat - '0'.toNat))
    else
      none

/-- Value of a non-empty all-digit character list, `none` otherwise. -/
def digitsToNat? : List Char → Option Nat
  | [] => none
  | cs => digitsToNatAux cs 0

/-- Model of Python's `int(s)` on an already-stripped string: optional
sign followed by a non-empty digit string, anything else is a
`ValueError` (here `none`). -/
def strToInt? (s : String) : Option Int :=
  match s.data with
  | '-' :: cs => (digitsToNat? cs).map (fun n => -(n : Int))
  | '+' :: cs => (digitsToNat? cs).map (fun n => (n : Int))
  | cs => (digitsToNat? cs).map (fun n => (n : Int))

/-- Failure of `getSelectedAreas` on a malformed panel line.  The
Python source raises the built-in `IndexError` (a referenced field is
missing) or `ValueError` (`int()` on a non-integer string); the spec
groups both under the name `MalformedPanelError`.  The payload is the
offending line. -/
inductive MalformedPanelError where
  | insufficientFields (line : String)
  | nonIntegerCoordinate (line : String)
deriving DecidableEq, Repr

/-- Access `fields[i]`; models Python's `IndexError` on a too-short
field list. -/
def getPanelField (fields : List String) (i : Nat) (line : String) :
    Except MalformedPanelError String :=
  match fields.get? i with
  | some f => .ok f
  | none => .error (.insufficientFields line)

/-- Conversion `int(s)`; models Python's `ValueError` on a non-integer
string. -/
def parsePanelInt (s : String) (line : String) : Except MalformedPanelError Int :=
  match strToInt? s with
  | some n => .ok n
  | none => .error (.nonIntegerCoordinate line)

/-- Parsing of one data line of the panel (`addPanelRG.py` lines
48-55): split on tabs, strip every field, then build the area
dictionary.  The fields are read in the evaluation order of the Python
dict literal: `fields[0]`, `int(fields[1])+1`, `int(fields[2])`,
`fields[3]`, `fields[5]`. -/
def parseArea (line : String) : Except MalformedPanelError Area := do
  let fields := (splitTab line).map stripStr
  let region ← getPanelField fields 0 line
  let startStr ← getPanelField fields 1 line
  let startVal ← parsePanelInt startStr line
  let endStr ← getPanelField fields 2 line
  let endVal ← parsePanelInt endStr line
  let idStr ← getPanelField fields 3 line
  let strandStr ← getPanelField fields 5 line
  pure { region := region, start := startVal + 1, «end» := endVal,
         id := idStr, strand := strandStr }

/-- Header / comment detection of `addPanelRG.py` line 47. -/
def isPanelHeader (line : String) : Bool :=
  strStartsWith line "browser " || strStartsWith line "track " || strStartsWith line "#"

/-- Translation of `getSelectedAreas(input_panel)` (`addPanelRG.py`
lines 38-56); the file is modelled as its list of lines. -/
def getSelectedAreas (input_panel : List String) : Except MalformedPanelError (List Area) :=
  match input_panel with
  | [] => .ok []
  | line :: rest =>
    if isPanelHeader line then
      getSelectedAreas rest
    else do
      let area ← parseArea line
      let areas ← getSelectedAreas rest
      pure (area :: areas)

/-- Strict lexicographic order on character lists, modelling Python's
`str <` comparison (by code points). -/
def charListLt : List Char → List Char → Bool
  | [], [] => false
  | [], _ :: _ => true
  | _ :: _, [] => false
  | a :: as, b :: bs =>
    if a < b then true
    else if b < a then false
    else charListLt as bs

/-- Model of Python's `str <`. -/
def strLt (a b : String) : Bool :=
  charListLt a.data b.data

/-- Sort key comparison of `addPanelRG.py` line 65: ascending
lexicographic order on `(x["region"], x["start"], x["end"])`. -/
def areaKeyLe (a b : Area) : Bool :=
  if strLt a.region b.region then true
  else if strLt b.region a.region then false
  else if a.start < b.start then true
  else if b.start < a.start then false
  else a.«end» ≤ b.«end»

/-- Propositional form of `areaKeyLe`. -/
def areaKeyLE (a b : Area) : Prop :=
  areaKeyLe a b = true

instance : DecidableRel areaKeyLE :=
  fun a b => inferInstanceAs (Decidable (areaKeyLe a b = true))

/-- One step of the grouping loop of `addPanelRG.py` lines 68-72: the
Python dict `area_by_chr` (insertion-ordered) is modelled as an
association list; an existing chromosome gets the area appended to its
list, a new chromosome is appended at the end. -/
def insertArea (area_by_chr : List (String × List Area)) (curr_area : Area) :
    List (String × List Area) :=
  match area_by_chr with
  | [] => [(curr_area.region, [curr_area])]
  | (chrom, areas) :: rest =>
    if chrom = curr_area.region then
      (chrom, areas ++ [curr_area]) :: rest
    else
      (chrom, areas) :: insertArea rest curr_area

/-- Translation of `getSelectedAreasByChr(input_panel)`
(`addPanelRG.py` lines 58-74): load the areas, sort them by
`(region, start, end)`, then group them by chromosome.  Python's
`sorted` is a stable sort; a stable sort under a total preorder is
extensionally unique, so it is modelled by the stable
`List.insertionSort`. -/
def getSelectedAreasByChr (input_panel : List String) :
    Except MalformedPanelError (List (String × List Area)) := do
  let selected_areas ← getSelectedAreas input_panel
  let sorted_areas := selected_areas.insertionSort areaKeyLE
  pure (sorted_areas.foldl insertArea [])

/-- Translation of `hasValidStrand(read, ampl_region)`
(`addPanelRG.py` lines 105-127). -/
def hasValidStrand (read : AlignedSegment) (ampl_region : Area) : Bool :=
  if read.is_read1 then
    if read.is_reverse then
      ampl_region.strand == "-"
    else
      ampl_region.strand == "+"
  else
    if read.is_reverse then
      ampl_region.strand == "+"
    else
      ampl_region.strand == "-"

/-- Per-sample FORMAT data of a VCF record as used by
`variantsToFreq.py`: presence of the `AF` and `AD` keys, with their
values (numeric values are modelled as rationals). -/
structure VcfSampleData where
  af : Option (List ℚ)
  ad : Option (List ℚ)
deriving DecidableEq, Repr

/-- Fields of a VCF record used by the allele-frequency loop of
`variantsToFreq.py` (lines 30-58): `INFO` is modelled by the two keys
the script reads (`AF`, `DP`), `samples` is the insertion-ordered dict
of per-sample data. -/
structure VcfRecord where
  chrom : String
  pos : Int
  alt : List String
  info_af : Option (List ℚ)
  info_dp : Option ℚ
  samples : List (String × VcfSampleData)
deriving DecidableEq, Repr

/-- Failure of the per-sample allele-frequency extraction.
`noFrequency` is the `Exception('The allele frequency cannot be
retrieved in variant "chrom:pos".')` of `variantsToFreq.py` line 53;
`missingInfoDP` is the built-in `KeyError` raised by
`record.info["DP"]` on line 49 when `DP` is absent. -/
inductive FreqError where
  | noFrequency (chrom : String) (pos : Int)
  | missingInfoDP
deriving DecidableEq, Repr

/-- Translation of the allele-frequency extraction for one sample
(`variantsToFreq.py` lines 43-53): per-sample `AF` first, then
per-sample `AD` divided by the record's `INFO DP` (skipping the
reference-allele depth), then — for records with at most one sample —
the record's `INFO AF`, and otherwise the fatal exception. -/
def getSampleAlleleFreq (record : VcfRecord) (spl : VcfSampleData) :
    Except FreqError (List ℚ) :=
  match spl.af with
  | some af => .ok af
  | none =>
    match spl.ad with
    | some ad =>
      match record.info_dp with
      | some dp => .ok ((ad.drop 1).map (fun allele_depth => allele_depth / dp))
      | none => .error .missingInfoDP
    | none =>
      if record.samples.length ≤ 1 then
        match record.info_af with
        | some af => .ok af
        | none => .error (.noFrequency record.chrom record.pos)
      else
        .error (.noFrequency record.chrom record.pos)

/-- The three allele-frequency encodings named by the specification:
per-sample `AF`; per-sample `AD` combined with the record's `DP`; and
— only for records with at most one sample — `AF` in the record's
shared info. -/
def exposesFreqEncoding (record : VcfRecord) (spl : VcfSampleData) : Prop :=
  spl.af.isSome ∨ (spl.ad.isSome ∧ record.info_dp.isSome) ∨
    (record.samples.length ≤ 1 ∧ record.info_af.isSome)

instance (record : VcfRecord) (spl : VcfSampleData) :
    Decidable (exposesFreqEncoding record spl) := by
  unfold exposesFreqEncoding; infer_instance

/-- Failure of the coverage-storage loop of `variantsToFreq.py` (lines
83-89).  `duplicateCoverage` is the `Exception("The depth for variant
'pos_id' already exists.")` of line 88; `unknownPosition` is the
built-in `KeyError` of `variants[pos_id]` on a position absent from
the variants dict; `badLineFormat` is the `ValueError` of unpacking a
line without exactly three tab-separated fields. -/
inductive CoverageError where
  | badLineFormat (line : String)
  | unknownPosition (pos_id : String)
  | duplicateCoverage (pos_id : String)
deriving DecidableEq, Repr

/-- Coverage tables: for each position id `"chrom:pos"`, the
insertion-ordered dict from sample name to depth (depths are kept as
the strings read from the `samtools depth` output, as in the
source). -/
abbrev CoverageTable := List (String × List (String × String))

/-- Replacement of the coverage dict of one position id, modelling the
in-place Python assignment `variants[pos_id]["coverage"][spl] =
depth`. -/
def setCoverage (variants : CoverageTable) (pos_id : String)
    (coverage : List (String × String)) : CoverageTable :=
  match variants with
  | [] => []
  | (key, cov) :: rest =>
    if key = pos_id then
      (key, coverage) :: rest
    else
      (key, cov) :: setCoverage rest pos_id coverage

/-- Storage of one depth value (`variantsToFreq.py` lines 86-89):
build the position id, look the position up, raise on a duplicate
sample entry, otherwise store the depth. -/
def storeDepthEntry (variants : CoverageTable) (spl chrom pos depth : String) :
    Except CoverageError CoverageTable :=
  let pos_id := chrom ++ ":" ++ pos
  match variants.lookup pos_id with
  | none => .error (.unknownPosition pos_id)
  | some coverage =>
    if (coverage.lookup spl).isSome then
      .error (.duplicateCoverage pos_id)
    else
      .ok (setCoverage variants pos_id (coverage ++ [(spl, depth)]))

/-- Translation of one iteration of the depth-storage loop
(`variantsToFreq.py` lines 84-89): split the stripped line into its
three fields, then store the depth value. -/
def storeDepthLine (variants : CoverageTable) (spl : String) (line : String) :
    Except CoverageError CoverageTable :=
  match splitTab (stripStr line) with
  | [chrom, pos, depth] => storeDepthEntry variants spl chrom pos depth
  | _ => .error (.badLineFormat line)

/-- Translation of the whole depth-storage loop for one sample's
coverage file (`variantsToFreq.py` lines 83-89), the file being
modelled as its list of lines. -/
def storeDepthLines (variants : CoverageTable) (spl : String) :
    List String → Except CoverageError CoverageTable
  | [] => .ok variants
  | line :: rest => do
    let variants' ← storeDepthLine variants spl line
    storeDepthLines variants' spl rest

/-- Ascending order on `(start, end)` used to state sortedness of one
chromosome's interval list. -/
def startEndLe (a b : Area) : Prop :=
  a.start < b.start ∨ (a.start = b.start ∧ a.«end» ≤ b.«end»)

instance (a b : Area) : Decidable (startEndLe a b) := by
  unfold startEndLe; infer_instance

/-- Matching predicate of the specification for forward reads: the
read's 1-based start lies between the interval start and the interval
start plus the anchor offset. -/
def fwdMatches (ref_start anchor_offset : Int) (r : Area) : Prop :=
  r.start ≤ ref_start ∧ ref_start ≤ r.start + anchor_offset

instance (ref_start anchor_offset : Int) (r : Area) :
    Decidable (fwdMatches ref_start anchor_offset r) := by
  unfold fwdMatches; infer_instance

/-- Scan described by the specification's words for reverse reads:
walk the intervals in order, return "no region" as soon as
`ref_end < interval.start`, and otherwise return the first interval
with `interval.end - anchor_offset <= ref_end <= interval.end`.  This
definition follows the claim's sentence and is compared against
`revRegionScan`, which follows the source. -/
def revScanClaim (ref_end : Int) (anchor_offset : Int) : List Area → Option Area
  | [] => none
  | r :: rest =>
    if ref_end < r.start then
      none
    else if r.«end» - anchor_offset ≤ ref_end ∧ ref_end ≤ r.«end» then
      some r
    else
      revScanClaim ref_end anchor_offset rest

/-! ## Helper lemmas about the matcher -/

/-- The source's reverse scan and the specification's description of it
agree on every interval list. -/
theorem revRegionScan_eq_claim (ref_end anchor_offset : Int) :
    ∀ regions : List Area,
      revRegionScan ref_end anchor_offset regions =
        revScanClaim ref_end anchor_offset regions
  | [] => rfl
  | r :: rest => by
    simp only [revRegionScan, revScanClaim]
    by_cases h1 : ref_end < r.start
    · simp [h1]
    · by_cases h2 : ref_end ≤ r.«end»
      · by_cases h3 : r.«end» - anchor_offset ≤ ref_end
        · simp [h1, h2, h3, ge_iff_le]
        · simp [h1, h2, h3, ge_iff_le,
            revRegionScan_eq_claim ref_end anchor_offset rest]
      · simp [h1, h2, revRegionScan_eq_claim ref_end anchor_offset rest]

/-- On a list sorted ascending by `(start, end)`, the forward scan of
the source returns the first interval whose start window contains the
read start. -/
theorem fwdRegionScan_eq_find (ref_start anchor_offset : Int) :
    ∀ regions : List Area, regions.Pairwise startEndLe →
      fwdRegionScan ref_start anchor_offset regions =
        regions.find? (fun r => decide (fwdMatches ref_start anchor_offset r))
  | [], _ => rfl
  | r :: rest, h_sorted => by
    have h_head : ∀ x ∈ rest, startEndLe r x :=
      fun x hx => List.rel_of_pairwise_cons h_sorted hx
    have h_tail : rest.Pairwise startEndLe := h_sorted.of_cons
    simp only [fwdRegionScan]
    by_cases h1 : ref_start < r.start
    · have h_r : decide (fwdMatches ref_start anchor_offset r) = false := by
        simp only [decide_eq_false_iff_not, fwdMatches, not_and]
        intro hc
        omega
      have h_none : rest.find? (fun x => decide (fwdMatches ref_start anchor_offset x)) = none := by
        refine List.find?_eq_none.mpr (fun x hx => ?_)
        have hle : r.start ≤ x.start := by
          rcases h_head x hx with h | ⟨h, _⟩
          · exact le_of_lt h
          · exact le_of_eq h
        simp only [decide_eq_true_eq, fwdMatches, not_and]
        intro hc
        omega
      rw [if_pos h1, List.find?_cons, h_r]
      exact h_none.symm
    · have h1' : ref_start ≥ r.start := by omega
      by_cases h2 : ref_start ≤ r.start + anchor_offset
      · have h_r : decide (fwdMatches ref_start anchor_offset r) = true := by
          simp only [decide_eq_true_eq, fwdMatches]
          omega
        rw [if_neg h1, if_pos h1', if_pos h2, List.find?_cons, h_r]
      · have h_r : decide (fwdMatches ref_start anchor_offset r) = false := by
          simp only [decide_eq_false_iff_not, fwdMatches, not_and]
          intro hc
          omega
        rw [if_neg h1, if_pos h1', if_neg h2, List.find?_cons, h_r]
        exact fwdRegionScan_eq_find ref_start anchor_offset rest h_tail

/-- Bounds carried by any successful reverse scan: the anchoring
coordinate is at least the interval start (the early-termination test
was passed) and at most the interval end (the match test). -/
theorem revRegionScan_some_bounds (ref_end anchor_offset : Int) :
    ∀ {regions : List Area} {itv : Area},
      revRegionScan ref_end anchor_offset regions = some itv →
      itv.start ≤ ref_end ∧ ref_end ≤ itv.«end»
  | [], _ => by
    intro h
    simp [revRegionScan] at h
  | r :: rest, itv => by
    simp only [revRegionScan]
    by_cases h1 : ref_end < r.start
    · simp [h1]
    · by_cases h2 : ref_end ≤ r.«end»
      · by_cases h3 : ref_end ≥ r.«end» - anchor_offset
        · simp only [h1, if_false, h2, if_true, h3, Option.some.injEq]
          intro h_eq
          subst h_eq
          omega
        · simp only [h1, if_false, h2, if_true, h3]
          exact revRegionScan_some_bounds ref_end anchor_offset
      · simp only [h1, if_false, h2, if_false]
        exact revRegionScan_some_bounds ref_end anchor_offset

/-- Lower bound carried by any successful forward scan: the anchoring
coordinate is at least the interval start. -/
theorem fwdRegionScan_some_bound (ref_start anchor_offset : Int) :
    ∀ {regions : List Area} {itv : Area},
      fwdRegionScan ref_start anchor_offset regions = some itv →
      itv.start ≤ ref_start
  | [], _ => by
    intro h
    simp [fwdRegionScan] at h
  | r :: rest, itv => by
    simp only [fwdRegionScan]
    by_cases h1 : ref_start < r.start
    · simp [h1]
    · by_cases h2 : ref_start ≥ r.start
      · by_cases h3 : ref_start ≤ r.start + anchor_offset
        · simp only [h1, if_false, h2, if_true, h3, Option.some.injEq]
          intro h_eq
          subst h_eq
          omega
        · simp only [h1, if_false, h2, if_true, h3, if_false]
          exact fwdRegionScan_some_bound ref_start anchor_offset
      · simp only [h1, if_false, h2, if_false]
        exact fwdRegionScan_some_bound ref_start anchor_offset

/-! ## Helper lemmas about association lists used as dicts -/

/-- Reduction of the exception monad's bind on a success. -/
theorem exceptBind_ok {ε α β : Type} (a : α) (f : α → Except ε β) :
    ((Except.ok a : Except ε α) >>= f) = f a := rfl

/-- Reduction of the exception monad's bind on a failure. -/
theorem exceptBind_error {ε α β : Type} (e : ε) (f : α → Except ε β) :
    ((Except.error e : Except ε α) >>= f) = Except.error e := rfl

/-- A successful `lookup` witnesses membership. -/
theorem lookup_mem {β : Type} :
    ∀ {v : List (String × β)} {p : String} {c : β},
      v.lookup p = some c → (p, c) ∈ v
  | [], p, c => by simp [List.lookup]
  | (k, b) :: tl, p, c => by
    simp only [List.lookup]
    by_cases hpk : p = k
    · simp only [hpk, beq_self_eq_true, Option.some.injEq, List.mem_cons]
      intro h
      exact Or.inl (by simp [h])
    · have hb : (p == k) = false := beq_false_of_ne hpk
      simp only [hb]
      intro h
      exact List.mem_cons_of_mem _ (lookup_mem h)

/-- A failed `lookup` means the key is absent. -/
theorem lookup_none_not_mem_keys {β : Type} :
    ∀ {v : List (String × β)} {p : String},
      (v.lookup p).isSome = false → p ∉ v.map Prod.fst
  | [], p => by simp
  | (k, b) :: tl, p => by
    simp only [List.lookup]
    by_cases hpk : p = k
    · simp [hpk]
    · have hb : (p == k) = false := beq_false_of_ne hpk
      simp only [hb, List.map_cons, List.mem_cons]
      intro h
      exact fun hc => hc.elim (fun h1 => hpk h1) (lookup_none_not_mem_keys h)

/-- An absent key is found at the end after appending it. -/
theorem lookup_append_single {β : Type} :
    ∀ {v : List (String × β)} {k : String} {d : β},
      (v.lookup k).isSome = false → (v ++ [(k, d)]).lookup k = some d
  | [], k, d => by simp [List.lookup]
  | (k₀, b) :: tl, k, d => by
    simp only [List.lookup, List.cons_append]
    by_cases hkk : k = k₀
    · simp [hkk, List.lookup]
    · have hb : (k == k₀) = false := beq_false_of_ne hkk
      simp only [hb, List.lookup]
      exact lookup_append_single

/-- `setCoverage` does not change the set of position ids. -/
theorem setCoverage_keys (pos_id : String) (coverage : List (String × String)) :
    ∀ variants : CoverageTable,
      (setCoverage variants pos_id coverage).map Prod.fst = variants.map Prod.fst
  | [] => rfl
  | (k, c) :: tl => by
    simp only [setCoverage]
    by_cases hk : k = pos_id
    · simp [hk]
    · simp [hk, setCoverage_keys pos_id coverage tl]

/-- `setCoverage` overwrites the first entry of the given position. -/
theorem setCoverage_lookup (pos_id : String) (coverage : List (String × String)) :
    ∀ {variants : CoverageTable} {cov₀ : List (String × String)},
      variants.lookup pos_id = some cov₀ →
      (setCoverage variants pos_id coverage).lookup pos_id = some coverage
  | [], _ => by simp [List.lookup]
  | (k, c) :: tl, cov₀ => by
    simp only [List.lookup, setCoverage]
    by_cases hk : pos_id = k
    · simp [hk, List.lookup]
    · have hb : (pos_id == k) = false := beq_false_of_ne hk
      have hk' : ¬ (k = pos_id) := fun h => hk h.symm
      simp only [hb, if_neg hk', List.lookup, hb]
      exact setCoverage_lookup pos_id coverage

/-- Every coverage list of the updated table is the new list or one of
the original ones. -/
theorem mem_setCoverage {pos_id : String} {coverage : List (String × String)} :
    ∀ {variants : CoverageTable} {q : String} {c : List (String × String)},
      (q, c) ∈ setCoverage variants pos_id coverage →
      c = coverage ∨ (q, c) ∈ variants
  | [], q, c => by simp [setCoverage]
  | (k, cov) :: tl, q, c => by
    simp only [setCoverage]
    by_cases hk : k = pos_id
    · simp only [if_pos hk, List.mem_cons]
      rintro (h | h)
      · exact Or.inl (congrArg Prod.snd h)
      · exact Or.inr (Or.inr h)
    · simp only [if_neg hk, List.mem_cons]
      rintro (h | h)
      · exact Or.inr (Or.inl h)
      · rcases mem_setCoverage h with h' | h'
        · exact Or.inl h'
        · exact Or.inr (Or.inr h')

/-- Each coverage dict of the table has distinct sample keys. -/
def CovInvariant (variants : CoverageTable) : Prop :=
  ∀ pos_id cov, (pos_id, cov) ∈ variants → (cov.map Prod.fst).Nodup

/-- `storeDepthEntry` preserves distinctness of sample keys. -/
theorem storeDepthEntry_invariant {variants variants' : CoverageTable}
    {spl chrom pos depth : String}
    (h : storeDepthEntry variants spl chrom pos depth = .ok variants')
    (h_inv : CovInvariant variants) : CovInvariant variants' := by
  unfold storeDepthEntry at h
  cases h_lookup : variants.lookup (chrom ++ ":" ++ pos) with
  | none => simp [h_lookup] at h
  | some coverage =>
    simp only [h_lookup] at h
    cases h_dup : (coverage.lookup spl).isSome with
    | true => simp [h_dup] at h
    | false =>
      simp only [h_dup, Bool.false_eq_true, if_false, Except.ok.injEq] at h
      subst h
      intro pos_id cov h_mem
      rcases mem_setCoverage h_mem with h_new | h_old
      · subst h_new
        rw [List.map_append]
        refine List.Nodup.append (h_inv _ _ (lookup_mem h_lookup)) (by simp) ?_
        intro a ha hb
        simp only [List.map_cons, List.map_nil, List.mem_singleton] at hb
        subst hb
        exact lookup_none_not_mem_keys h_dup ha
      · exact h_inv _ _ h_old

/-- `storeDepthLines` preserves distinctness of sample keys. -/
theorem storeDepthLines_invariant {spl : String} :
    ∀ {lines : List String} {variants variants' : CoverageTable},
      storeDepthLines variants spl lines = .ok variants' →
      CovInvariant variants → CovInvariant variants'
  | [], variants, variants' => by
    intro h h_inv
    simp only [storeDepthLines, Except.ok.injEq] at h
    exact h ▸ h_inv
  | line :: rest, variants, variants' => by
    intro h h_inv
    simp only [storeDepthLines] at h
    cases h_step : storeDepthLine variants spl line with
    | error e => simp [h_step, exceptBind_error] at h
    | ok v₁ =>
      rw [h_step, exceptBind_ok] at h
      have h_inv₁ : CovInvariant v₁ := by
        unfold storeDepthLine at h_step
        cases h_split : splitTab (stripStr line) with
        | nil => simp [h_split] at h_step
        | cons a tl =>
          match tl, h_step with
          | [], h_step => simp [h_split] at h_step
          | [b], h_step => simp [h_split] at h_step
          | [b, c], h_step =>
            rw [h_split] at h_step
            exact storeDepthEntry_invariant h_step h_inv
          | b :: c :: d :: tl', h_step => simp [h_split] at h_step
      exact storeDepthLines_invariant h h_inv₁

/-! ## Order lemmas for the sort key -/

/-- Irreflexivity of the string order. -/
theorem charListLt_irrefl : ∀ l : List Char, charListLt l l = false
  | [] => rfl
  | c :: cs => by simp [charListLt, lt_irrefl, charListLt_irrefl cs]

/-- Transitivity of the string order. -/
theorem charListLt_trans : ∀ {a b c : List Char},
    charListLt a b = true → charListLt b c = true → charListLt a c = true
  | [], [], _ => by simp [charListLt]
  | [], _ :: _, [] => by simp [charListLt]
  | [], _ :: _, _ :: _ => by simp [charListLt]
  | _ :: _, [], _ => by simp [charListLt]
  | _ :: _, _ :: _, [] => by simp [charListLt]
  | a :: as, b :: bs, c :: cs => by
    intro h1 h2
    simp only [charListLt] at h1 h2 ⊢
    by_cases hab : a < b
    · by_cases hbc : b < c
      · rw [if_pos (lt_trans hab hbc)]
      · by_cases hcb : c < b
        · rw [if_neg hbc, if_pos hcb] at h2
          cases h2
        · have hbc' : b = c := le_antisymm (not_lt.mp hcb) (not_lt.mp hbc)
          rw [if_pos (hbc' ▸ hab)]
    · by_cases hba : b < a
      · rw [if_neg hab, if_pos hba] at h1
        cases h1
      · have hab' : a = b := le_antisymm (not_lt.mp hba) (not_lt.mp hab)
        subst hab'
        rw [if_neg hab, if_neg hba] at h1
        by_cases hbc : a < c
        · rw [if_pos hbc]
        · by_cases hcb : c < a
          · rw [if_neg hbc, if_pos hcb] at h2
            cases h2
          · rw [if_neg hbc, if_neg hcb] at h2 ⊢
            exact charListLt_trans h1 h2

/-- Trichotomy of the string order. -/
theorem charListLt_trichotomy : ∀ a b : List Char,
    charListLt a b = true ∨ charListLt b a = true ∨ a = b
  | [], [] => Or.inr (Or.inr rfl)
  | [], _ :: _ => Or.inl (by simp [charListLt])
  | _ :: _, [] => Or.inr (Or.inl (by simp [charListLt]))
  | a :: as, b :: bs => by
    rcases lt_trichotomy a b with h | h | h
    · exact Or.inl (by simp [charListLt, h])
    · subst h
      rcases charListLt_trichotomy as bs with h' | h' | h'
      · exact Or.inl (by simp [charListLt, lt_irrefl, h'])
      · exact Or.inr (Or.inl (by simp [charListLt, lt_irrefl, h']))
      · exact Or.inr (Or.inr (by simp [h']))
    · exact Or.inr (Or.inl (by simp [charListLt, h]))

/-- Equality of the character lists of two strings is equality. -/
theorem strData_inj {a b : String} (h : a.data = b.data) : a = b := by
  cases a
  cases b
  exact congrArg String.mk h

/-- Irreflexivity of `strLt`. -/
theorem strLt_irrefl (s : String) : strLt s s = false :=
  charListLt_irrefl s.data

/-- Transitivity of `strLt`. -/
theorem strLt_trans {a b c : String}
    (h1 : strLt a b = true) (h2 : strLt b c = true) : strLt a c = true :=
  charListLt_trans h1 h2

/-- Trichotomy of `strLt`. -/
theorem strLt_trichotomy (a b : String) :
    strLt a b = true ∨ strLt b a = true ∨ a = b := by
  rcases charListLt_trichotomy a.data b.data with h | h | h
  · exact Or.inl h
  · exact Or.inr (Or.inl h)
  · exact Or.inr (Or.inr (strData_inj h))

/-- Characterization of the area sort key order: either the region is
strictly smaller, or the regions agree and `(start, end)` is ordered. -/
theorem areaKeyLe_iff (a b : Area) :
    areaKeyLe a b = true ↔
      (strLt a.region b.region = true ∨ (a.region = b.region ∧ startEndLe a b)) := by
  unfold areaKeyLe
  by_cases h1 : strLt a.region b.region = true
  · simp [h1]
  · have h1' : strLt a.region b.region = false := by
      cases h : strLt a.region b.region
      · rfl
      · exact absurd h h1
    by_cases h2 : strLt b.region a.region = true
    · have hne : ¬(a.region = b.region) := by
        intro he
        rw [he, strLt_irrefl] at h2
        cases h2
      simp [h1', h2, hne]
    · have heq : a.region = b.region := by
        rcases strLt_trichotomy a.region b.region with h | h | h
        · exact absurd h h1
        · exact absurd h h2
        · exact h
      rw [if_neg h1, if_neg h2]
      constructor
      · intro h5
        refine Or.inr ⟨heq, ?_⟩
        unfold startEndLe
        by_cases h3 : a.start < b.start
        · exact Or.inl h3
        · by_cases h4 : b.start < a.start
          · rw [if_neg h3, if_pos h4] at h5
            cases h5
          · rw [if_neg h3, if_neg h4] at h5
            exact Or.inr ⟨by omega, by simpa using h5⟩
      · rintro (h5 | ⟨_, h5⟩)
        · exact absurd h5 h1
        · unfold startEndLe at h5
          by_cases h3 : a.start < b.start
          · rw [if_pos h3]
          · by_cases h4 : b.start < a.start
            · rcases h5 with h5 | ⟨h5, _⟩
              · exact absurd h5 h3
              · exact absurd h4 (by omega)
            · rw [if_neg h3, if_neg h4]
              rcases h5 with h5 | ⟨_, h5⟩
              · exact absurd h5 h3
              · simpa using h5

/-- Totality of the `(start, end)` order. -/
theorem startEndLe_total (a b : Area) : startEndLe a b ∨ startEndLe b a := by
  unfold startEndLe
  omega

/-- Transitivity of the `(start, end)` order. -/
theorem startEndLe_trans {a b c : Area}
    (h1 : startEndLe a b) (h2 : startEndLe b c) : startEndLe a c := by
  unfold startEndLe at h1 h2 ⊢
  omega

instance : IsTotal Area areaKeyLE :=
  ⟨fun a b => by
    rw [areaKeyLE, areaKeyLE, areaKeyLe_iff, areaKeyLe_iff]
    rcases strLt_trichotomy a.region b.region with h | h | h
    · exact Or.inl (Or.inl h)
    · exact Or.inr (Or.inl h)
    · rcases startEndLe_total a b with hs | hs
      · exact Or.inl (Or.inr ⟨h, hs⟩)
      · exact Or.inr (Or.inr ⟨h.symm, hs⟩)⟩

instance : IsTrans Area areaKeyLE :=
  ⟨fun a b c hab hbc => by
    rw [areaKeyLE, areaKeyLe_iff] at hab hbc ⊢
    rcases hab with h | ⟨he, hs⟩ <;> rcases hbc with h' | ⟨he', hs'⟩
    · exact Or.inl (strLt_trans h h')
    · exact Or.inl (he' ▸ h)
    · exact Or.inl (he ▸ h')
    · exact Or.inr ⟨he.trans he', startEndLe_trans hs hs'⟩⟩

/-- Two key-ordered areas of the same chromosome are `(start, end)`
ordered. -/
theorem areaKeyLE_startEndLe {a b : Area}
    (h : areaKeyLE a b) (hr : a.region = b.region) : startEndLe a b := by
  rw [areaKeyLE, areaKeyLe_iff] at h
  rcases h with h | ⟨_, hs⟩
  · rw [hr, strLt_irrefl] at h
    cases h
  · exact hs

/-! ## Helper lemmas about the grouping fold -/

/-- Every group of `insertArea acc a` is a group of `acc`, the fresh
singleton `[a]`, or a group of `acc` for `a`'s chromosome with `a`
appended. -/
theorem mem_insertArea :
    ∀ {acc : List (String × List Area)} {a : Area} {c : String} {l : List Area},
      (c, l) ∈ insertArea acc a →
      (c, l) ∈ acc ∨ (c = a.region ∧ l = [a]) ∨
        (c = a.region ∧ ∃ l₀, (c, l₀) ∈ acc ∧ l = l₀ ++ [a])
  | [], a, c, l => by
    simp only [insertArea, List.mem_singleton, Prod.mk.injEq]
    rintro ⟨hc, hl⟩
    exact Or.inr (Or.inl ⟨hc, hl⟩)
  | (k, kl) :: rest, a, c, l => by
    simp only [insertArea]
    by_cases hk : k = a.region
    · rw [if_pos hk]
      intro h_mem
      rcases List.mem_cons.mp h_mem with h | h
      · simp only [Prod.mk.injEq] at h
        obtain ⟨hc, hl⟩ := h
        subst hc
        exact Or.inr (Or.inr ⟨hk, kl, List.mem_cons_self _ _, hl⟩)
      · exact Or.inl (List.mem_cons_of_mem _ h)
    · rw [if_neg hk]
      intro h_mem
      rcases List.mem_cons.mp h_mem with h | h
      · exact Or.inl (h ▸ List.mem_cons_self _ _)
      · rcases mem_insertArea h with h' | h' | ⟨hc, l₀, h₀, hl⟩
        · exact Or.inl (List.mem_cons_of_mem _ h')
        · exact Or.inr (Or.inl h')
        · exact Or.inr (Or.inr ⟨hc, l₀, List.mem_cons_of_mem _ h₀, hl⟩)

/-- Invariant of the grouping fold over a key-sorted list: every group
holds only areas of its chromosome, in `(start, end)` order. -/
theorem foldl_insertArea_invariant :
    ∀ (xs : List Area) (acc : List (String × List Area)),
      xs.Pairwise areaKeyLE →
      (∀ c l, (c, l) ∈ acc → (∀ x ∈ l, x.region = c) ∧ l.Pairwise startEndLe) →
      (∀ c l, (c, l) ∈ acc → ∀ x ∈ l, ∀ y ∈ xs, areaKeyLE x y) →
      ∀ c l, (c, l) ∈ xs.foldl insertArea acc →
        (∀ x ∈ l, x.region = c) ∧ l.Pairwise startEndLe
  | [], acc => fun _ h_acc _ => h_acc
  | a :: rest, acc => by
    intro h_sorted h_acc h_cross
    simp only [List.foldl_cons]
    refine foldl_insertArea_invariant rest (insertArea acc a) h_sorted.of_cons ?_ ?_
    · intro c l h_mem
      rcases mem_insertArea h_mem with h | ⟨hc, hl⟩ | ⟨hc, l₀, h₀, hl⟩
      · exact h_acc c l h
      · subst hc
        subst hl
        exact ⟨by simp, by simp⟩
      · subst hc
        subst hl
        obtain ⟨h_reg, h_pw⟩ := h_acc _ _ h₀
        constructor
        · intro x hx
          rcases List.mem_append.mp hx with hx | hx
          · exact h_reg x hx
          · rw [List.mem_singleton.mp hx]
        · rw [List.pairwise_append]
          refine ⟨h_pw, by simp, ?_⟩
          intro x hx y hy
          rw [List.mem_singleton.mp hy]
          have h_xa : areaKeyLE x a :=
            h_cross _ _ h₀ x hx a (List.mem_cons_self _ _)
          exact areaKeyLE_startEndLe h_xa (h_reg x hx)
    · intro c l h_mem x hx y hy
      rcases mem_insertArea h_mem with h | ⟨hc, hl⟩ | ⟨hc, l₀, h₀, hl⟩
      · exact h_cross c l h x hx y (List.mem_cons_of_mem _ hy)
      · subst hl
        rw [List.mem_singleton.mp hx]
        exact List.rel_of_pairwise_cons h_sorted hy
      · subst hl
        rcases List.mem_append.mp hx with hx | hx
        · exact h_cross _ _ h₀ x hx y (List.mem_cons_of_mem _ hy)
        · rw [List.mem_singleton.mp hx]
          exact List.rel_of_pairwise_cons h_sorted hy

/-- `insertArea` adds exactly one occurrence of the new area to the
concatenation of all groups. -/
theorem insertArea_flatten_perm (a : Area) :
    ∀ acc : List (String × List Area),
      ((insertArea acc a).map Prod.snd).flatten ~
        ((acc.map Prod.snd).flatten ++ [a])
  | [] => by simp [insertArea]
  | (k, kl) :: rest => by
    simp only [insertArea]
    by_cases hk : k = a.region
    · rw [if_pos hk]
      simp only [List.map_cons, List.flatten_cons]
      calc (kl ++ [a]) ++ (rest.map Prod.snd).flatten
          = kl ++ ([a] ++ (rest.map Prod.snd).flatten) := by
            rw [List.append_assoc]
        _ ~ kl ++ ((rest.map Prod.snd).flatten ++ [a]) :=
            List.Perm.append_left kl (List.perm_append_comm)
        _ = (kl ++ (rest.map Prod.snd).flatten) ++ [a] := by
            rw [List.append_assoc]
    · rw [if_neg hk]
      simp only [List.map_cons, List.flatten_cons]
      calc kl ++ ((insertArea rest a).map Prod.snd).flatten
          ~ kl ++ ((rest.map Prod.snd).flatten ++ [a]) :=
            List.Perm.append_left kl (insertArea_flatten_perm a rest)
        _ = (kl ++ (rest.map Prod.snd).flatten) ++ [a] := by
            rw [List.append_assoc]

/-- The grouping fold only permutes the areas (each appears exactly
once in the concatenation of the groups). -/
theorem foldl_insertArea_flatten_perm :
    ∀ (xs : List Area) (acc : List (String × List Area)),
      ((xs.foldl insertArea acc).map Prod.snd).flatten ~
        ((acc.map Prod.snd).flatten ++ xs)
  | [], acc => by simp
  | a :: rest, acc => by
    simp only [List.foldl_cons]
    calc ((rest.foldl insertArea (insertArea acc a)).map Prod.snd).flatten
        ~ (((insertArea acc a).map Prod.snd).flatten ++ rest) :=
          foldl_insertArea_flatten_perm rest (insertArea acc a)
      _ ~ (((acc.map Prod.snd).flatten ++ [a]) ++ rest) :=
          List.Perm.append_right rest (insertArea_flatten_perm a acc)
      _ = (acc.map Prod.snd).flatten ++ (a :: rest) := by
          rw [List.append_assoc]
          rfl

/-! ## Helper lemmas about panel loading -/

/-- Every non-header line of a successfully loaded panel parses. -/
theorem getSelectedAreas_mem_ok :
    ∀ {lines : List String} {areas : List Area},
      getSelectedAreas lines = .ok areas →
      ∀ line ∈ lines, isPanelHeader line = false → ∃ a, parseArea line = .ok a
  | [], areas => by
    intro h line h_mem
    simp at h_mem
  | l :: rest, areas => by
    intro h line h_mem h_data
    simp only [getSelectedAreas] at h
    cases h_hdr : isPanelHeader l with
    | true =>
      rw [h_hdr, if_pos rfl] at h
      rcases List.mem_cons.mp h_mem with h_eq | h_mem'
      · subst h_eq
        rw [h_hdr] at h_data
        cases h_data
      · exact getSelectedAreas_mem_ok h line h_mem' h_data
    | false =>
      rw [h_hdr] at h
      simp only [Bool.false_eq_true, if_false] at h
      cases h_pa : parseArea l with
      | error e =>
        rw [h_pa, exceptBind_error] at h
        cases h
      | ok a =>
        rw [h_pa, exceptBind_ok] at h
        rcases List.mem_cons.mp h_mem with h_eq | h_mem'
        · subst h_eq
          exact ⟨a, h_pa⟩
        · cases h_rest : getSelectedAreas rest with
          | error e =>
            rw [h_rest, exceptBind_error] at h
            cases h
          | ok as => exact getSelectedAreas_mem_ok h_rest line h_mem' h_data

/-- A successfully loaded panel yields exactly one area per data
line. -/
theorem getSelectedAreas_length :
    ∀ {lines : List String} {areas : List Area},
      getSelectedAreas lines = .ok areas →
      areas.length = lines.countP (fun l => !(isPanelHeader l))
  | [], areas => by
    intro h
    simp only [getSelectedAreas, Except.ok.injEq] at h
    simp [← h]
  | l :: rest, areas => by
    intro h
    simp only [getSelectedAreas] at h
    cases h_hdr : isPanelHeader l with
    | true =>
      rw [h_hdr, if_pos rfl] at h
      rw [List.countP_cons]
      simp only [h_hdr, Bool.not_true, Bool.false_eq_true, if_false, Nat.add_zero]
      exact getSelectedAreas_length h
    | false =>
      rw [h_hdr] at h
      simp only [Bool.false_eq_true, if_false] at h
      cases h_pa : parseArea l with
      | error e =>
        rw [h_pa, exceptBind_error] at h
        cases h
      | ok a =>
        rw [h_pa, exceptBind_ok] at h
        cases h_rest : getSelectedAreas rest with
        | error e =>
          rw [h_rest, exceptBind_error] at h
          cases h
        | ok as =>
          rw [h_rest, exceptBind_ok] at h
          have h_inj : a :: as = areas := Except.ok.inj h
          rw [List.countP_cons]
          simp only [h_hdr, Bool.not_false, if_pos]
          rw [← h_inj, List.length_cons, getSelectedAreas_length h_rest]

/-- Shape of a successfully parsed panel line: at least six fields and
integer `start`/`end` fields. -/
theorem parseArea_ok_shape {line : String} {a : Area}
    (h : parseArea line = .ok a) :
    6 ≤ ((splitTab line).map stripStr).length ∧
    (∃ s n, ((splitTab line).map stripStr).get? 1 = some s ∧ strToInt? s = some n) ∧
    (∃ s n, ((splitTab line).map stripStr).get? 2 = some s ∧ strToInt? s = some n) := by
  unfold parseArea at h
  dsimp only [] at h
  cases h0 : getPanelField ((splitTab line).map stripStr) 0 line with
  | error e =>
    rw [h0, exceptBind_error] at h
    cases h
  | ok f0 =>
  rw [h0, exceptBind_ok] at h
  cases h1 : getPanelField ((splitTab line).map stripStr) 1 line with
  | error e =>
    rw [h1, exceptBind_error] at h
    cases h
  | ok f1 =>
  rw [h1, exceptBind_ok] at h
  cases h1i : parsePanelInt f1 line with
  | error e =>
    rw [h1i, exceptBind_error] at h
    cases h
  | ok n1 =>
  rw [h1i, exceptBind_ok] at h
  cases h2 : getPanelField ((splitTab line).map stripStr) 2 line with
  | error e =>
    rw [h2, exceptBind_error] at h
    cases h
  | ok f2 =>
  rw [h2, exceptBind_ok] at h
  cases h2i : parsePanelInt f2 line with
  | error e =>
    rw [h2i, exceptBind_error] at h
    cases h
  | ok n2 =>
  rw [h2i, exceptBind_ok] at h
  cases h3 : getPanelField ((splitTab line).map stripStr) 3 line with
  | error e =>
    rw [h3, exceptBind_error] at h
    cases h
  | ok f3 =>
  rw [h3, exceptBind_ok] at h
  cases h5 : getPanelField ((splitTab line).map stripStr) 5 line with
  | error e =>
    rw [h5, exceptBind_error] at h
    cases h
  | ok f5 =>
  have h5q : ((splitTab line).map stripStr).get? 5 = some f5 := by
    unfold getPanelField at h5
    cases hq : ((splitTab line).map stripStr).get? 5 with
    | none =>
      rw [hq] at h5
      cases h5
    | some f =>
      rw [hq] at h5
      cases h5
      rfl
  have h1q : ((splitTab line).map stripStr).get? 1 = some f1 := by
    unfold getPanelField at h1
    cases hq : ((splitTab line).map stripStr).get? 1 with
    | none =>
      rw [hq] at h1
      cases h1
    | some f =>
      rw [hq] at h1
      cases h1
      rfl
  have h2q : ((splitTab line).map stripStr).get? 2 = some f2 := by
    unfold getPanelField at h2
    cases hq : ((splitTab line).map stripStr).get? 2 with
    | none =>
      rw [hq] at h2
      cases h2
    | some f =>
      rw [hq] at h2
      cases h2
      rfl
  have h1n : strToInt? f1 = some n1 := by
    unfold parsePanelInt at h1i
    cases hq : strToInt? f1 with
    | none =>
      rw [hq] at h1i
      cases h1i
    | some n =>
      rw [hq] at h1i
      cases h1i
      rfl
  have h2n : strToInt? f2 = some n2 := by
    unfold parsePanelInt at h2i
    cases hq : strToInt? f2 with
    | none =>
      rw [hq] at h2i
      cases h2i
    | some n =>
      rw [hq] at h2i
      cases h2i
      rfl
  have h_len : 5 < ((splitTab line).map stripStr).length :=
    List.get?_eq_some.mp h5q |>.1
  exact ⟨h_len, ⟨f1, n1, h1q, h1n⟩, ⟨f2, n2, h2q, h2n⟩⟩

/-! ## Claim theorems -/

/-- C1: for a forward read anchored at `ref_start = reference_start + 1`
and a chromosome interval list sorted ascending by `(start, end)`,
`getSourceRegion` with `anchor_offset >= 0` returns the first interval
with `interval.start <= ref_start <= interval.start + anchor_offset`
and `none` when no interval qualifies; in particular
`ref_start = interval.start + anchor_offset` matches,
`ref_start = interval.start + anchor_offset + 1` does not, and an
empty interval list yields `none`. -/
theorem getSourceRegion_forward_spec (read : AlignedSegment) (regions : List Area)
    (anchor_offset : Int) (itv : Area)
    (h_fwd : read.is_reverse = false) (h_off : 0 ≤ anchor_offset)
    (h_sorted : regions.Pairwise startEndLe) :
    getSourceRegion read regions anchor_offset =
      regions.find?
        (fun r => decide (fwdMatches (read.reference_start + 1) anchor_offset r)) ∧
    getSourceRegion read [] anchor_offset = none ∧
    (read.reference_start + 1 = itv.start + anchor_offset →
      getSourceRegion read [itv] anchor_offset = some itv) ∧
    (read.reference_start + 1 = itv.start + anchor_offset + 1 →
      getSourceRegion read [itv] anchor_offset = none) := by
  refine ⟨?_, ?_, ?_, ?_⟩
  · simp only [getSourceRegion, h_fwd, Bool.false_eq_true, if_false]
    exact fwdRegionScan_eq_find (read.reference_start + 1) anchor_offset regions h_sorted
  · simp [getSourceRegion, h_fwd, fwdRegionScan]
  · intro h_eq
    simp only [getSourceRegion, h_fwd, Bool.false_eq_true, if_false, fwdRegionScan]
    rw [if_neg (by omega), if_pos (by omega), if_pos (by omega)]
  · intro h_eq
    simp only [getSourceRegion, h_fwd, Bool.false_eq_true, if_false, fwdRegionScan]
    rw [if_neg (by omega), if_pos (by omega), if_neg (by omega)]

/-- Witness for C1 on a concrete forward read and panel. -/
theorem getSourceRegion_forward_spec_witness :
    getSourceRegion ⟨101, 150, false, true⟩
        [⟨"chr1", 101, 150, "A", "+"⟩, ⟨"chr1", 201, 250, "B", "-"⟩] 4 =
      List.find?
        (fun r => decide (fwdMatches 102 4 r))
        [⟨"chr1", 101, 150, "A", "+"⟩, ⟨"chr1", 201, 250, "B", "-"⟩] ∧
    getSourceRegion ⟨101, 150, false, true⟩ [] 4 = none ∧
    ((101 : Int) + 1 = 98 + 4 →
      getSourceRegion ⟨101, 150, false, true⟩ [⟨"chr1", 98, 150, "A", "+"⟩] 4 =
        some ⟨"chr1", 98, 150, "A", "+"⟩) ∧
    ((101 : Int) + 1 = 97 + 4 + 1 →
      getSourceRegion ⟨101, 150, false, true⟩ [⟨"chr1", 97, 150, "A", "+"⟩] 4 = none) :=
  ⟨(getSourceRegion_forward_spec ⟨101, 150, false, true⟩
      [⟨"chr1", 101, 150, "A", "+"⟩, ⟨"chr1", 201, 250, "B", "-"⟩] 4
      ⟨"chr1", 101, 150, "A", "+"⟩ rfl (by decide)
      (by simp [startEndLe])).1,
    (getSourceRegion_forward_spec ⟨101, 150, false, true⟩ [] 4
      ⟨"chr1", 101, 150, "A", "+"⟩ rfl (by decide) (by simp)).2.1,
    (getSourceRegion_forward_spec ⟨101, 150, false, true⟩ [] 4
      ⟨"chr1", 98, 150, "A", "+"⟩ rfl (by decide) (by simp)).2.2.1,
    (getSourceRegion_forward_spec ⟨101, 150, false, true⟩ [] 4
      ⟨"chr1", 97, 150, "A", "+"⟩ rfl (by decide) (by simp)).2.2.2⟩

/-- C2: for a reverse read anchored at `ref_end = reference_end`,
`getSourceRegion` performs exactly the ascending scan described by the
spec (early `none` as soon as `ref_end < interval.start`, otherwise
first interval with `interval.end - anchor_offset <= ref_end <=
interval.end`); in particular an interval reached by the scan matches
at `ref_end = interval.end - anchor_offset` and not at
`ref_end = interval.end - anchor_offset - 1`. -/
theorem getSourceRegion_reverse_spec (read : AlignedSegment) (regions : List Area)
    (anchor_offset : Int) (itv : Area)
    (h_rev : read.is_reverse = true) (h_off : 0 ≤ anchor_offset) :
    getSourceRegion read regions anchor_offset =
      revScanClaim read.reference_end anchor_offset regions ∧
    (itv.start ≤ itv.«end» - anchor_offset →
      read.reference_end = itv.«end» - anchor_offset →
      getSourceRegion read [itv] anchor_offset = some itv) ∧
    (read.reference_end = itv.«end» - anchor_offset - 1 →
      getSourceRegion read [itv] anchor_offset = none) := by
  refine ⟨?_, ?_, ?_⟩
  · simp only [getSourceRegion, h_rev, if_true]
    exact revRegionScan_eq_claim read.reference_end anchor_offset regions
  · intro h_reach h_eq
    simp only [getSourceRegion, h_rev, if_true, revRegionScan]
    rw [if_neg (by omega), if_pos (by omega), if_pos (by omega)]
  · intro h_eq
    simp only [getSourceRegion, h_rev, if_true, revRegionScan]
    by_cases h1 : read.reference_end < itv.start
    · rw [if_pos h1]
    · rw [if_neg h1, if_pos (by omega), if_neg (by omega)]

/-- Witness for C2 on a concrete reverse read and panel. -/
theorem getSourceRegion_reverse_spec_witness :
    getSourceRegion ⟨200, 248, true, true⟩
        [⟨"chr1", 101, 150, "A", "+"⟩, ⟨"chr1", 201, 250, "B", "-"⟩] 4 =
      revScanClaim 248 4
        [⟨"chr1", 101, 150, "A", "+"⟩, ⟨"chr1", 201, 250, "B", "-"⟩] ∧
    ((201 : Int) ≤ 250 - 4 → (246 : Int) = 250 - 4 →
      getSourceRegion ⟨200, 246, true, true⟩ [⟨"chr1", 201, 250, "B", "-"⟩] 4 =
        some ⟨"chr1", 201, 250, "B", "-"⟩) ∧
    ((245 : Int) = 250 - 4 - 1 →
      getSourceRegion ⟨200, 245, true, true⟩ [⟨"chr1", 201, 250, "B", "-"⟩] 4 = none) :=
  ⟨(getSourceRegion_reverse_spec ⟨200, 248, true, true⟩
      [⟨"chr1", 101, 150, "A", "+"⟩, ⟨"chr1", 201, 250, "B", "-"⟩] 4
      ⟨"chr1", 201, 250, "B", "-"⟩ rfl (by decide)).1,
    (getSourceRegion_reverse_spec ⟨200, 246, true, true⟩ [] 4
      ⟨"chr1", 201, 250, "B", "-"⟩ rfl (by decide)).2.1,
    (getSourceRegion_reverse_spec ⟨200, 245, true, true⟩ [] 4
      ⟨"chr1", 201, 250, "B", "-"⟩ rfl (by decide)).2.2⟩

/-- C4: `hasValidStrand` accepts exactly the four combinations
(first-in-pair, reverse, `-`), (first-in-pair, forward, `+`),
(second-in-pair, reverse, `+`), (second-in-pair, forward, `-`) of an
interval whose strand is `+` or `-`, and rejects every other
combination. -/
theorem hasValidStrand_spec (read : AlignedSegment) (ampl_region : Area)
    (h : ampl_region.strand = "+" ∨ ampl_region.strand = "-") :
    hasValidStrand read ampl_region = true ↔
      ((read.is_read1 = true ∧ read.is_reverse = true ∧ ampl_region.strand = "-") ∨
        (read.is_read1 = true ∧ read.is_reverse = false ∧ ampl_region.strand = "+") ∨
        (read.is_read1 = false ∧ read.is_reverse = true ∧ ampl_region.strand = "+") ∨
        (read.is_read1 = false ∧ read.is_reverse = false ∧ ampl_region.strand = "-")) := by
  rcases h with h | h <;>
    cases h1 : read.is_read1 <;> cases h2 : read.is_reverse <;>
      simp [hasValidStrand, h, h1, h2]

/-- Witness for C4 on a concrete first-in-pair forward read and a
`+`-stranded interval. -/
theorem hasValidStrand_spec_witness :
    hasValidStrand ⟨101, 150, false, true⟩ ⟨"chr1", 101, 150, "A", "+"⟩ = true :=
  (hasValidStrand_spec ⟨101, 150, false, true⟩ ⟨"chr1", 101, 150, "A", "+"⟩
    (Or.inl rfl)).mpr (Or.inr (Or.inl ⟨rfl, rfl, rfl⟩))

/-- C8: `getSourceRegion` is modelled as a pure function, so it cannot
mutate the read, the region list or any other state; it is
deterministic, and its value depends only on the read fields it
inspects (`is_reverse`, `reference_start`, `reference_end`). -/
theorem getSourceRegion_pure (read read₂ : AlignedSegment) (regions : List Area)
    (anchor_offset : Int)
    (h_start : read₂.reference_start = read.reference_start)
    (h_end : read₂.reference_end = read.reference_end)
    (h_rev : read₂.is_reverse = read.is_reverse) :
    getSourceRegion read regions anchor_offset =
      getSourceRegion read regions anchor_offset ∧
    getSourceRegion read₂ regions anchor_offset =
      getSourceRegion read regions anchor_offset := by
  refine ⟨rfl, ?_⟩
  simp only [getSourceRegion, h_start, h_end, h_rev]

/-- Witness for C8: two reads identical up to the pairing flag get the
same region. -/
theorem getSourceRegion_pure_witness :
    getSourceRegion ⟨101, 150, false, true⟩ [⟨"chr1", 101, 150, "A", "+"⟩] 4 =
      getSourceRegion ⟨101, 150, false, true⟩ [⟨"chr1", 101, 150, "A", "+"⟩] 4 ∧
    getSourceRegion ⟨101, 150, false, false⟩ [⟨"chr1", 101, 150, "A", "+"⟩] 4 =
      getSourceRegion ⟨101, 150, false, true⟩ [⟨"chr1", 101, 150, "A", "+"⟩] 4 :=
  getSourceRegion_pure ⟨101, 150, false, true⟩ ⟨101, 150, false, false⟩
    [⟨"chr1", 101, 150, "A", "+"⟩] 4 rfl rfl rfl

/-- C10: whenever `getSourceRegion` returns an interval for a reverse
read, the read's 1-based reference end lies inside the interval; for a
forward read only the lower bound `interval.start <= ref_start` is
guaranteed, and a concrete forward read shows the upper bound can
fail. -/
theorem getSourceRegion_containment :
    (∀ (read : AlignedSegment) (regions : List Area) (anchor_offset : Int) (itv : Area),
      read.is_reverse = true →
      getSourceRegion read regions anchor_offset = some itv →
      itv.start ≤ read.reference_end ∧ read.reference_end ≤ itv.«end») ∧
    (∀ (read : AlignedSegment) (regions : List Area) (anchor_offset : Int) (itv : Area),
      read.is_reverse = false →
      getSourceRegion read regions anchor_offset = some itv →
      itv.start ≤ read.reference_start + 1) ∧
    (getSourceRegion ⟨101, 200, false, true⟩ [⟨"chr1", 100, 101, "A", "+"⟩] 4 =
        some ⟨"chr1", 100, 101, "A", "+"⟩ ∧
      (Area.«end» ⟨"chr1", 100, 101, "A", "+"⟩ < (101 : Int) + 1)) := by
  refine ⟨?_, ?_, by decide, by decide⟩
  · intro read regions anchor_offset itv h_rev h_some
    simp only [getSourceRegion, h_rev, if_true] at h_some
    exact revRegionScan_some_bounds read.reference_end anchor_offset h_some
  · intro read regions anchor_offset itv h_fwd h_some
    simp only [getSourceRegion, h_fwd, Bool.false_eq_true, if_false] at h_some
    exact fwdRegionScan_some_bound (read.reference_start + 1) anchor_offset h_some

/-- Witness for C10: instantiation of both containment statements on
concrete matching reads. -/
theorem getSourceRegion_containment_witness :
    ((Area.start ⟨"chr1", 201, 250, "B", "-"⟩ ≤ (248 : Int)) ∧
      ((248 : Int) ≤ Area.«end» ⟨"chr1", 201, 250, "B", "-"⟩)) ∧
    (Area.start ⟨"chr1", 101, 150, "A", "+"⟩ ≤ (101 : Int) + 1) :=
  ⟨getSourceRegion_containment.1 ⟨200, 248, true, true⟩
      [⟨"chr1", 201, 250, "B", "-"⟩] 4 ⟨"chr1", 201, 250, "B", "-"⟩ rfl (by decide),
    getSourceRegion_containment.2.1 ⟨101, 150, false, true⟩
      [⟨"chr1", 101, 150, "A", "+"⟩] 4 ⟨"chr1", 101, 150, "A", "+"⟩ rfl (by decide)⟩

/-- C3: a well-formed panel loads into a by-chromosome grouping that
contains every loaded interval exactly once (one interval per data
line, start shifted to 1-based by the parser), places every interval
in its own chromosome's list, and keeps every chromosome's list sorted
ascending by `(start, end)`. -/
theorem getSelectedAreasByChr_spec (input_panel : List String) (areas : List Area)
    (h : getSelectedAreas input_panel = .ok areas) :
    ∃ groups, getSelectedAreasByChr input_panel = .ok groups ∧
      (groups.map Prod.snd).flatten ~ areas ∧
      areas.length = input_panel.countP (fun l => !(isPanelHeader l)) ∧
      (∀ chrom l, (chrom, l) ∈ groups → ∀ a ∈ l, a.region = chrom) ∧
      (∀ chrom l, (chrom, l) ∈ groups → l.Pairwise startEndLe) := by
  have h_inv := foldl_insertArea_invariant (areas.insertionSort areaKeyLE) []
    (List.sorted_insertionSort areaKeyLE areas) (by simp) (by simp)
  refine ⟨(areas.insertionSort areaKeyLE).foldl insertArea [], ?_, ?_,
    getSelectedAreas_length h, ?_, ?_⟩
  · unfold getSelectedAreasByChr
    rw [h, exceptBind_ok]
    rfl
  · refine (foldl_insertArea_flatten_perm (areas.insertionSort areaKeyLE) []).trans ?_
    simpa using List.perm_insertionSort areaKeyLE areas
  · intro chrom l h_mem
    exact (h_inv chrom l h_mem).1
  · intro chrom l h_mem
    exact (h_inv chrom l h_mem).2

/-- Witness for C3 on a concrete two-line panel given out of order. -/
theorem getSelectedAreasByChr_spec_witness :
    ∃ groups,
      getSelectedAreasByChr
          ["track x", "chr1\t200\t250\tB\t0\t-", "chr1\t100\t150\tA\t0\t+"] =
        .ok groups ∧
      (groups.map Prod.snd).flatten ~
        [⟨"chr1", 201, 250, "B", "-"⟩, ⟨"chr1", 101, 150, "A", "+"⟩] ∧
      ([(⟨"chr1", 201, 250, "B", "-"⟩ : Area), ⟨"chr1", 101, 150, "A", "+"⟩]).length =
        (["track x", "chr1\t200\t250\tB\t0\t-", "chr1\t100\t150\tA\t0\t+"]).countP
          (fun l => !(isPanelHeader l)) ∧
      (∀ chrom l, (chrom, l) ∈ groups → ∀ a ∈ l, a.region = chrom) ∧
      (∀ chrom l, (chrom, l) ∈ groups → l.Pairwise startEndLe) :=
  getSelectedAreasByChr_spec
    ["track x", "chr1\t200\t250\tB\t0\t-", "chr1\t100\t150\tA\t0\t+"]
    [⟨"chr1", 201, 250, "B", "-"⟩, ⟨"chr1", 101, 150, "A", "+"⟩] (by rfl)

/-- C5: a panel containing a non-comment, non-header data line with
fewer than six tab-separated fields, or with a non-integer start or
end field, makes the loader fail with a `MalformedPanelError`. -/
theorem getSelectedAreas_malformed (input_panel : List String) (line : String)
    (h_mem : line ∈ input_panel) (h_data : isPanelHeader line = false)
    (h_bad : ((splitTab line).map stripStr).length < 6 ∨
      (∃ s, ((splitTab line).map stripStr).get? 1 = some s ∧ strToInt? s = none) ∨
      (∃ s, ((splitTab line).map stripStr).get? 2 = some s ∧ strToInt? s = none)) :
    ∃ e, getSelectedAreas input_panel = .error e := by
  cases h_res : getSelectedAreas input_panel with
  | error e => exact ⟨e, rfl⟩
  | ok areas =>
    exfalso
    obtain ⟨a, h_a⟩ := getSelectedAreas_mem_ok h_res line h_mem h_data
    obtain ⟨h_len, ⟨s1, n1, hs1, hn1⟩, s2, n2, hs2, hn2⟩ := parseArea_ok_shape h_a
    rcases h_bad with h | ⟨s, hs, hnone⟩ | ⟨s, hs, hnone⟩
    · omega
    · rw [hs1] at hs
      cases hs
      rw [hn1] at hnone
      cases hnone
    · rw [hs2] at hs
      cases hs
      rw [hn2] at hnone
      cases hnone

/-- Witness for C5 on a panel whose data line has a non-integer start
field. -/
theorem getSelectedAreas_malformed_witness :
    ∃ e, getSelectedAreas ["chr1\t1x0\t150\tA\t0\t+"] = .error e :=
  getSelectedAreas_malformed ["chr1\t1x0\t150\tA\t0\t+"] "chr1\t1x0\t150\tA\t0\t+"
    (List.mem_cons_self _ _) (by rfl)
    (Or.inr (Or.inl ⟨"1x0", by rfl, by rfl⟩))

/-- C9: duplicate interval ids are not validated: a panel whose data
lines carry the same id still loads without error and the grouping
keeps one interval per data line — both duplicates are present, none
is overwritten. -/
theorem getSelectedAreasByChr_duplicate_ids (input_panel : List String)
    (areas : List Area) (i j : Nat) (hi : i < areas.length) (hj : j < areas.length)
    (hij : i ≠ j) (h : getSelectedAreas input_panel = .ok areas)
    (h_id : (areas.get ⟨i, hi⟩).id = (areas.get ⟨j, hj⟩).id) :
    ∃ groups, getSelectedAreasByChr input_panel = .ok groups ∧
      (groups.map Prod.snd).flatten ~ areas ∧
      ((groups.map Prod.snd).flatten).length = areas.length := by
  have h_perm : (((areas.insertionSort areaKeyLE).foldl insertArea []).map
      Prod.snd).flatten ~ areas := by
    refine (foldl_insertArea_flatten_perm (areas.insertionSort areaKeyLE) []).trans ?_
    simpa using List.perm_insertionSort areaKeyLE areas
  refine ⟨(areas.insertionSort areaKeyLE).foldl insertArea [], ?_, h_perm,
    h_perm.length_eq⟩
  unfold getSelectedAreasByChr
  rw [h, exceptBind_ok]
  rfl

/-- Witness for C9 on a concrete panel whose two data lines share the
id `A`. -/
theorem getSelectedAreasByChr_duplicate_ids_witness :
    ∃ groups,
      getSelectedAreasByChr ["chr1\t100\t150\tA\t0\t+", "chr1\t200\t250\tA\t0\t-"] =
        .ok groups ∧
      (groups.map Prod.snd).flatten ~
        [⟨"chr1", 101, 150, "A", "+"⟩, ⟨"chr1", 201, 250, "A", "-"⟩] ∧
      ((groups.map Prod.snd).flatten).length =
        ([(⟨"chr1", 101, 150, "A", "+"⟩ : Area), ⟨"chr1", 201, 250, "A", "-"⟩]).length :=
  getSelectedAreasByChr_duplicate_ids
    ["chr1\t100\t150\tA\t0\t+", "chr1\t200\t250\tA\t0\t-"]
    [⟨"chr1", 101, 150, "A", "+"⟩, ⟨"chr1", 201, 250, "A", "-"⟩]
    0 1 (by decide) (by decide) (by decide) (by rfl) (by rfl)

/-- C6 counterexample: a record whose single sample carries `AD` but
whose shared info carries neither `DP` nor `AF` exposes none of the
three encodings named by the claim, yet the extraction does not raise
the no-frequency error — it fails with the `KeyError` of
`record.info["DP"]` instead. -/
theorem getSampleAlleleFreq_claim_counterexample :
    ¬ exposesFreqEncoding
        { chrom := "chr1", pos := 100, alt := ["A"], info_af := none,
          info_dp := none, samples := [("s1", { af := none, ad := some [10, 5] })] }
        { af := none, ad := some [10, 5] } ∧
    getSampleAlleleFreq
        { chrom := "chr1", pos := 100, alt := ["A"], info_af := none,
          info_dp := none, samples := [("s1", { af := none, ad := some [10, 5] })] }
        { af := none, ad := some [10, 5] } =
      .error .missingInfoDP :=
  ⟨by decide, rfl⟩

/-- C6 (amended): the no-frequency error is raised exactly when the
sample has neither `AF` nor `AD` and the record is not a
single-sample record with `AF` in its shared info; the encodings are
consulted in the order per-sample `AF`, per-sample `AD` with the
record's `DP`, shared-info `AF`, and a sample with `AD` but a record
without `DP` fails with the `KeyError` of `record.info["DP"]` rather
than the no-frequency error. -/
theorem getSampleAlleleFreq_spec (record : VcfRecord) (spl : VcfSampleData) :
    (getSampleAlleleFreq record spl = .error (.noFrequency record.chrom record.pos) ↔
      spl.af = none ∧ spl.ad = none ∧
        ¬(record.samples.length ≤ 1 ∧ record.info_af.isSome = true)) ∧
    (∀ af, spl.af = some af → getSampleAlleleFreq record spl = .ok af) ∧
    (∀ ad dp, spl.af = none → spl.ad = some ad → record.info_dp = some dp →
      getSampleAlleleFreq record spl =
        .ok ((ad.drop 1).map (fun allele_depth => allele_depth / dp))) ∧
    (∀ ad, spl.af = none → spl.ad = some ad → record.info_dp = none →
      getSampleAlleleFreq record spl = .error .missingInfoDP) ∧
    (∀ af, spl.af = none → spl.ad = none → record.samples.length ≤ 1 →
      record.info_af = some af → getSampleAlleleFreq record spl = .ok af) := by
  refine ⟨?_, ?_, ?_, ?_, ?_⟩
  · constructor
    · intro h
      cases h_af : spl.af with
      | some af => simp [getSampleAlleleFreq, h_af] at h
      | none =>
        cases h_ad : spl.ad with
        | some ad =>
          cases h_dp : record.info_dp with
          | some dp => simp [getSampleAlleleFreq, h_af, h_ad, h_dp] at h
          | none => simp [getSampleAlleleFreq, h_af, h_ad, h_dp] at h
        | none =>
          refine ⟨rfl, rfl, ?_⟩
          rintro ⟨h_len, h_info⟩
          cases h_iaf : record.info_af with
          | some af =>
            simp [getSampleAlleleFreq, h_af, h_ad, h_len, h_iaf] at h
          | none => simp [h_iaf] at h_info
    · rintro ⟨h_af, h_ad, h_other⟩
      by_cases h_len : record.samples.length ≤ 1
      · cases h_iaf : record.info_af with
        | some af => exact absurd ⟨h_len, by simp [h_iaf]⟩ h_other
        | none => simp [getSampleAlleleFreq, h_af, h_ad, h_len, h_iaf]
      · simp [getSampleAlleleFreq, h_af, h_ad, h_len]
  · intro af h_af
    simp [getSampleAlleleFreq, h_af]
  · intro ad dp h_af h_ad h_dp
    simp [getSampleAlleleFreq, h_af, h_ad, h_dp]
  · intro ad h_af h_ad h_dp
    simp [getSampleAlleleFreq, h_af, h_ad, h_dp]
  · intro af h_af h_ad h_len h_iaf
    simp [getSampleAlleleFreq, h_af, h_ad, h_len, h_iaf]

/-- Witness for C6 (amended) on concrete records: the no-frequency
error for a record with no encoding at all, and the `AD`/`DP` derived
frequencies. -/
theorem getSampleAlleleFreq_spec_witness :
    getSampleAlleleFreq
        { chrom := "chr2", pos := 7, alt := ["T"], info_af := none,
          info_dp := none, samples := [("s1", { af := none, ad := none }),
            ("s2", { af := none, ad := none })] }
        { af := none, ad := none } =
      .error (.noFrequency "chr2" 7) ∧
    getSampleAlleleFreq
        { chrom := "chr1", pos := 100, alt := ["A"], info_af := none,
          info_dp := some 20, samples := [("s1", { af := none, ad := some [10, 5] })] }
        { af := none, ad := some [10, 5] } =
      .ok [5 / 20] :=
  ⟨(getSampleAlleleFreq_spec
      { chrom := "chr2", pos := 7, alt := ["T"], info_af := none,
        info_dp := none, samples := [("s1", { af := none, ad := none }),
          ("s2", { af := none, ad := none })] }
      { af := none, ad := none }).1.mpr ⟨rfl, rfl, by decide⟩,
    (getSampleAlleleFreq_spec
      { chrom := "chr1", pos := 100, alt := ["A"], info_af := none,
        info_dp := some 20, samples := [("s1", { af := none, ad := some [10, 5] })] }
      { af := none, ad := some [10, 5] }).2.2.1 [10, 5] 20 rfl rfl rfl⟩

/-- C7: during coverage collection, a second depth value for a
sample/position pair raises the fatal duplicate-coverage error naming
the position; otherwise the value is stored under that pair; and the
storage loop keeps at most one coverage value per sample per
position (distinct sample keys in every coverage dict). -/
theorem storeDepth_spec :
    (∀ (variants : CoverageTable) (spl chrom pos depth : String)
        (coverage : List (String × String)),
      variants.lookup (chrom ++ ":" ++ pos) = some coverage →
      (coverage.lookup spl).isSome = true →
      storeDepthEntry variants spl chrom pos depth =
        .error (.duplicateCoverage (chrom ++ ":" ++ pos))) ∧
    (∀ (variants : CoverageTable) (spl chrom pos depth : String)
        (coverage : List (String × String)),
      variants.lookup (chrom ++ ":" ++ pos) = some coverage →
      (coverage.lookup spl).isSome = false →
      storeDepthEntry variants spl chrom pos depth =
        .ok (setCoverage variants (chrom ++ ":" ++ pos) (coverage ++ [(spl, depth)])) ∧
      (setCoverage variants (chrom ++ ":" ++ pos)
          (coverage ++ [(spl, depth)])).lookup (chrom ++ ":" ++ pos) =
        some (coverage ++ [(spl, depth)]) ∧
      (coverage ++ [(spl, depth)]).lookup spl = some depth) ∧
    (∀ (variants variants' : CoverageTable) (spl : String) (lines : List String),
      storeDepthLines variants spl lines = .ok variants' →
      CovInvariant variants → CovInvariant variants') := by
  refine ⟨?_, ?_, ?_⟩
  · intro variants spl chrom pos depth coverage h_lookup h_dup
    simp [storeDepthEntry, h_lookup, h_dup]
  · intro variants spl chrom pos depth coverage h_lookup h_dup
    refine ⟨by simp [storeDepthEntry, h_lookup, h_dup], ?_, ?_⟩
    · exact setCoverage_lookup _ _ h_lookup
    · exact lookup_append_single h_dup
  · intro variants variants' spl lines h h_inv
    exact storeDepthLines_invariant h h_inv

/-- Witness for C7 on a concrete table: the duplicate raises, the
fresh sample stores. -/
theorem storeDepth_spec_witness :
    storeDepthEntry [("chr1:10", [("s1", "55")])] "s1" "chr1" "10" "60" =
      .error (.duplicateCoverage ("chr1" ++ ":" ++ "10")) ∧
    storeDepthEntry [("chr1:10", [("s1", "55")])] "s2" "chr1" "10" "60" =
      .ok (setCoverage [("chr1:10", [("s1", "55")])] ("chr1" ++ ":" ++ "10")
        ([("s1", "55")] ++ [("s2", "60")])) :=
  ⟨storeDepth_spec.1 [("chr1:10", [("s1", "55")])] "s1" "chr1" "10" "60"
      [("s1", "55")] (by rfl) (by rfl),
    (storeDepth_spec.2.1 [("chr1:10", [("s1", "55")])] "s2" "chr1" "10" "60"
      [("s1", "55")] (by rfl) (by rfl)).1⟩

end AnaCore
